import Mathlib

/-!
Shallow embedding of `src/apache-log-exporter-api.py`.

File contents are modelled as `List Char`; a poll schedule is the sequence of
states of the on-disk file observed at the open-time stat and at each
subsequent idle-poll stat (`GetInodeAndSize`, lines 41-43 of the source).
-/

namespace ApacheLogExporter

/-- Exceptions of the Python program that are relevant to the ingestion loop.
`fileNotFound` is raised by `os.lstat` when the path is absent;
`inodeChanged` and `fileShrunk` are the classes defined at lines 33-38;
`attributeError` is raised by attribute access on a parsed entry that lacks
the attribute; `other` stands for any further exception type. -/
inductive PyExc where
  | fileNotFound
  | inodeChanged
  | fileShrunk
  | attributeError
  | other (name : String)
deriving DecidableEq, Repr

/-- State of the on-disk file at one stat: inode and content (its size is
`content.length`). -/
structure FileSnap where
  ino : Nat
  content : List Char
deriving DecidableEq, Repr

/-- A schedule of file states: the state seen by the open-time stat followed by
the state seen at each idle-poll stat. `none` means the path is absent at
that stat (so `os.lstat` raises `FileNotFoundError`). -/
abbrev Schedule := List (Option FileSnap)

/-- Model of one Python `file.readline()` result on the unread remainder of the
file: the characters up to and including the first newline, or everything
when no newline is present. -/
def takeLine : List Char → List Char
  | [] => []
  | a :: as => if a = '\n' then ['\n'] else a :: takeLine as

/-- Model of Python `line.endswith("\n")`. -/
def endsNL (l : List Char) : Bool := l.getLast? == some '\n'

/-- The inner readline loop of `follow` (lines 55-62): starting from read
offset `pos` with buffered partial line `buf`, repeatedly `readline` from
content `c` until an empty read, accumulating into the buffer and yielding
each newline-terminated buffer (unless `ignoreExisting` is set).
Returns (yielded lines, final read offset, final buffer). -/
def drain (ign : Bool) (c : List Char) (pos : Nat) (buf : List Char) :
    List (List Char) × Nat × List Char :=
  if h : takeLine (c.drop pos) = [] then
    ([], pos, buf)
  else
    if endsNL (buf ++ takeLine (c.drop pos)) then
      let r := drain ign c (pos + (takeLine (c.drop pos)).length) []
      ((if ign then r.1 else (buf ++ takeLine (c.drop pos)) :: r.1), r.2.1, r.2.2)
    else
      drain ign c (pos + (takeLine (c.drop pos)).length) (buf ++ takeLine (c.drop pos))
termination_by c.length - pos
decreasing_by
  all_goals
    have hd : c.drop pos ≠ [] := by
      intro hnil
      simp [hnil, takeLine] at h
    have hp : pos < c.length := by
      by_contra hle
      exact hd (List.drop_eq_nil_of_le (Nat.le_of_not_lt hle))
    have hl : 0 < (takeLine (c.drop pos)).length := List.length_pos.mpr h
    omega

/-- Result of running the `follow` generator over a finite schedule:
the lines yielded in order, the exception it ended with (`none` when the
schedule ran out while it was still polling), the final read offset of the
open handle, and the final partial-line buffer. -/
structure FollowResult where
  yields : List (List Char)
  outcome : Option PyExc
  pos : Nat
  buf : List Char
deriving DecidableEq, Repr

/-- The polling part of `follow` (lines 63-71): after the first empty read,
`ignoreExisting` is always false; each idle poll stats the file, raises
`InodeChangedError` on an inode change, `FileShrunkError` when the size
decreased since the previous stat, `FileNotFoundError` when the path is
absent, and otherwise updates `lastSize` and drains the new content. -/
def followGo (origInode lastSize pos : Nat) (buf : List Char) :
    Schedule → FollowResult
  | [] => ⟨[], none, pos, buf⟩
  | none :: _ => ⟨[], some .fileNotFound, pos, buf⟩
  | some f :: rest =>
    if f.ino ≠ origInode then ⟨[], some .inodeChanged, pos, buf⟩
    else if f.content.length < lastSize then ⟨[], some .fileShrunk, pos, buf⟩
    else
      let d := drain false f.content pos buf
      let r := followGo origInode f.content.length d.2.1 d.2.2 rest
      ⟨d.1 ++ r.yields, r.outcome, r.pos, r.buf⟩

/-- Model of `follow(fn, ignoreExisting)` (lines 46-71) run over a finite poll
schedule. The head of the schedule is the file state at the open-time stat;
the open handle reads from offset 0 of it. The first drain uses the
`ignoreExisting` argument; every later drain happens after an empty read has
set `ignoreExisting = False`. -/
def follow (ign : Bool) : Schedule → FollowResult
  | [] => ⟨[], none, 0, []⟩
  | none :: _ => ⟨[], some .fileNotFound, 0, []⟩
  | some f0 :: rest =>
    let d := drain ign f0.content 0 []
    let r := followGo f0.ino f0.content.length d.2.1 d.2.2 rest
    ⟨d.1 ++ r.yields, r.outcome, r.pos, r.buf⟩

/-- Schedule of a file with inode `ino` that only grows: starting from content
`c`, each idle poll observes the previous content extended by the next element
of `incs`. -/
def grow (ino : Nat) (c : List Char) : List (List Char) → Schedule
  | [] => []
  | d :: ds => some ⟨ino, c ++ d⟩ :: grow ino (c ++ d) ds

/-- `UNSPECIFIED = "def"` (line 30). -/
def UNSPECIFIED : String := "def"

/-- Output of the external `apachelogs` parser: a bag of named fields, any of
which may be absent depending on the log format. `parse_line` guards only
`virtual_host`, `server_port` and `bytes_out` with `hasattr`; the remaining
fields are accessed directly, so `remote_host` is kept optional here (an
absent attribute raises `AttributeError` on access), while `request_uri` and
`final_status` are modelled as present (the hard-coded format string at line
81 always produces them). -/
structure RawRecord where
  virtual_host : Option String
  server_port : Option Nat
  bytes_out : Option Nat
  remote_host : Option String
  request_uri : String
  final_status : Nat
deriving DecidableEq, Repr

/-- A parsed entry after `parse_line`'s defaulting (lines 107-114): the three
guarded attributes are guaranteed present, `remote_host` still may be absent. -/
structure Entry where
  virtual_host : String
  server_port : Nat
  bytes_out : Nat
  remote_host : Option String
  request_uri : String
  final_status : Nat
deriving DecidableEq, Repr

/-- Model of `ApacheLogExporter.parse_line` (lines 102-116): run the external
parser, then default `virtual_host` to "unspecified", `server_port` to 80 and
`bytes_out` to 0 when absent. A parser failure propagates (it is caught by the
caller's per-line handler). -/
def parse_line (p : List Char → Except String RawRecord) (line : List Char) :
    Except String Entry :=
  match p line with
  | .error e => .error e
  | .ok entry => .ok {
      virtual_host := entry.virtual_host.getD "unspecified",
      server_port := entry.server_port.getD 80,
      bytes_out := entry.bytes_out.getD 0,
      remote_host := entry.remote_host,
      request_uri := entry.request_uri,
      final_status := entry.final_status }

/-- Model of Python `dict.get(key, default)` for the resolver table. -/
def dictGet (tbl : List (String × String)) (k d : String) : String :=
  (tbl.lookup k).getD d

/-- The record after the whole normalization step the spec calls
RecordNormalizer: `parse_line`'s defaulting (lines 107-114) plus the alias
lookup `self.resolver.get(entry.remote_host, UNSPECIFIED)` (line 132). -/
structure NormalizedRecord where
  virtual_host : String
  server_port : Nat
  bytes_out : Nat
  remote_host : String
  resolved_remote_host : String
  request_uri : String
  final_status : Nat
deriving DecidableEq, Repr

/-- Normalization as the code performs it: the `hasattr` defaulting of
lines 107-114 followed by the alias-table lookup of line 132. Accessing
`entry.remote_host` on an entry that lacks the attribute raises
`AttributeError`, which this step does not catch. -/
def normalize (resolver : List (String × String)) (raw : RawRecord) :
    Except PyExc NormalizedRecord :=
  match raw.remote_host with
  | none => .error .attributeError
  | some rh => .ok {
      virtual_host := raw.virtual_host.getD "unspecified",
      server_port := raw.server_port.getD 80,
      bytes_out := raw.bytes_out.getD 0,
      remote_host := rh,
      resolved_remote_host := dictGet resolver rh UNSPECIFIED,
      request_uri := raw.request_uri,
      final_status := raw.final_status }

/-- One observation sent to `webRequestSummary.labels(...).observe(bytes_out)`
(lines 134-139); `server_port` and `final_status` go through `str(...)`. -/
structure SummaryObs where
  virtual_host : String
  server_port : String
  request_uri : String
  final_status : String
  remote_host : String
  value : Nat
deriving DecidableEq, Repr

/-- One observation sent to
`webRequestBytesOutHistogram.labels(...).observe(bytes_out)` (lines 141-144). -/
structure HistObs where
  virtual_host : String
  remote_host : String
  value : Nat
deriving DecidableEq, Repr

/-- What the body of the `for line in follow(...)` loop (lines 123-144) does
with one line: skip it (parse failure: warn and `continue`), record the
summary observation and optionally the histogram observation, or raise. -/
inductive LineStep where
  | skipped
  | observed (s : SummaryObs) (h : Option HistObs)
  | raised (e : PyExc)
deriving DecidableEq, Repr

/-- Model of one iteration of the per-line loop body (lines 123-144).
The `try`/`except Exception` at lines 123-127 guards only `parse_line`, so a
parser failure becomes `skipped`; the `if not entry: continue` check at
line 129 never fires because a parsed `LogEntry` object is always truthy;
`entry.remote_host` at line 132 raises `AttributeError` when the entry lacks
that attribute; the histogram observation is issued only when
`enableHistogram` was set at construction (lines 92, 141). -/
def processLine (enableHistogram : Bool) (resolver : List (String × String))
    (p : List Char → Except String RawRecord) (line : List Char) : LineStep :=
  match parse_line p line with
  | .error _ => .skipped
  | .ok entry =>
    match entry.remote_host with
    | none => .raised .attributeError
    | some rh =>
      let remote_host := dictGet resolver rh UNSPECIFIED
      .observed
        ⟨entry.virtual_host, toString entry.server_port, entry.request_uri,
          toString entry.final_status, remote_host, entry.bytes_out⟩
        (if enableHistogram then
          some ⟨entry.virtual_host, remote_host, entry.bytes_out⟩
        else none)

/-- Everything the per-line loop did to a finite list of yielded lines:
observations forwarded to the two metric sinks, the lines warned about
(parse failures), and the exception that aborted the loop, if any. -/
structure IngestResult where
  summaryObs : List SummaryObs
  histObs : List HistObs
  warned : List (List Char)
  raised : Option PyExc
deriving DecidableEq, Repr

/-- Model of the `for line in follow(...)` loop body applied to the yielded
lines in order (lines 122-144). A skipped line is logged and the loop
continues; an uncaught exception ends the loop at that line, discarding
nothing already observed but processing no further line. -/
def processLines (eh : Bool) (resolver : List (String × String))
    (p : List Char → Except String RawRecord) : List (List Char) → IngestResult
  | [] => ⟨[], [], [], none⟩
  | l :: ls =>
    match processLine eh resolver p l with
    | .skipped =>
      let r := processLines eh resolver p ls
      ⟨r.summaryObs, r.histObs, l :: r.warned, r.raised⟩
    | .raised e => ⟨[], [], [], some e⟩
    | .observed s h =>
      let r := processLines eh resolver p ls
      ⟨s :: r.summaryObs,
       (match h with | some hh => hh :: r.histObs | none => r.histObs),
       r.warned, r.raised⟩

/-- The exception types named by the `except` clause at line 145:
`(FileNotFoundError, InodeChangedError, FileShrunkError)`. -/
def caughtByRecovery : PyExc → Bool
  | .fileNotFound => true
  | .inodeChanged => true
  | .fileShrunk => true
  | _ => false

/-- One pass through the body of the outer `while True` of `read_log_files`:
which `ignoreExisting` value the `follow` generator was opened with, and what
the per-line loop did. -/
structure SessionLog where
  usedIgnore : Bool
  ingest : IngestResult
deriving DecidableEq, Repr

/-- One execution of the recovery handler (lines 145-148): the exception it
caught and the `time.sleep(1)` back-off it performed before looping. -/
structure Recovery where
  caught : PyExc
  slept : Nat
deriving DecidableEq, Repr

/-- Result of running `read_log_files` over a finite list of per-session poll
schedules: the sessions in order, the recoveries between them, and the
exception that escaped `read_log_files`, if any. -/
structure RunResult where
  sessions : List SessionLog
  recoveries : List Recovery
  uncaught : Option PyExc
deriving DecidableEq, Repr

/-- Model of `ApacheLogExporter.read_log_files` (lines 118-148) run over a
finite list of poll schedules, one per `follow` generator lifetime. Each pass
opens `follow` with the current `ignoreExisting`, processes the yielded lines,
and then faces the exception that ended the pass: the one raised inside the
loop body, if any, else the one `follow` raised. If the `except` clause of
line 145 catches it, the handler sets `ignoreExisting = False`, sleeps 1
second and loops; otherwise the exception escapes `read_log_files`. An
exhausted schedule with no exception means the process is still inside
`follow` when the modelled trace ends. -/
def read_log_files (eh : Bool) (resolver : List (String × String))
    (p : List Char → Except String RawRecord) :
    Bool → List Schedule → RunResult
  | _, [] => ⟨[], [], none⟩
  | ign, sched :: rest =>
    let f := follow ign sched
    let ir := processLines eh resolver p f.yields
    match (match ir.raised with | some e => some e | none => f.outcome) with
    | none => ⟨[⟨ign, ir⟩], [], none⟩
    | some e =>
      if caughtByRecovery e then
        let r := read_log_files eh resolver p false rest
        ⟨⟨ign, ir⟩ :: r.sessions, ⟨e, 1⟩ :: r.recoveries, r.uncaught⟩
      else ⟨[⟨ign, ir⟩], [], some e⟩

/-- A concrete external parser used by witnesses: it parses the line "x\n"
into a record lacking every optional attribute and fails on everything else. -/
def pEx : List Char → Except String RawRecord :=
  fun l => if l = ['x', '\n'] then .ok ⟨none, none, none, none, "/", 200⟩
           else .error "parse failure"

/-- A concrete external parser used by witnesses: it parses the line "y\n"
into a record that has a remote host and fails on everything else. -/
def pEx2 : List Char → Except String RawRecord :=
  fun l => if l = ['y', '\n'] then .ok ⟨some "h", some 8080, some 7, some "1.2.3.4", "/a", 301⟩
           else .error "parse failure"

example : (follow false [some ⟨1, ['a', '\n', 'b']⟩]).yields = [['a', '\n']] := by
  simp [follow, followGo, drain, takeLine, endsNL]

example : (follow true [some ⟨1, ['a', 'b']⟩, some ⟨1, ['a', 'b', 'c', '\n', 'd']⟩]).yields
    = [['a', 'b', 'c', '\n']] := by
  simp [follow, followGo, drain, takeLine, endsNL]

/-! ### Basic lemmas about the readline model -/

theorem takeLine_eq_nil_iff (l : List Char) : takeLine l = [] ↔ l = [] := by
  cases l with
  | nil => simp [takeLine]
  | cons a as => simp only [takeLine]; split <;> simp

theorem takeLine_length_le (l : List Char) : (takeLine l).length ≤ l.length := by
  induction l with
  | nil => simp [takeLine]
  | cons a as ih =>
    simp only [takeLine]
    split
    · simp
    · simpa using ih

theorem takeLine_append_drop (l : List Char) :
    takeLine l ++ l.drop (takeLine l).length = l := by
  induction l with
  | nil => rfl
  | cons a as ih =>
    simp only [takeLine]
    by_cases ha : a = '\n'
    · simp [ha]
    · simp only [if_neg ha, List.length_cons, List.drop_succ_cons, List.cons_append,
        List.cons.injEq, true_and]
      exact ih

theorem takeLine_of_not_mem (l : List Char) (h : '\n' ∉ l) : takeLine l = l := by
  induction l with
  | nil => rfl
  | cons a as ih =>
    rw [List.mem_cons, not_or] at h
    rw [takeLine, if_neg (fun e => h.1 e.symm), ih h.2]

theorem takeLine_concat_newline (t : List Char) (h : '\n' ∉ t) :
    takeLine (t ++ ['\n']) = t ++ ['\n'] := by
  induction t with
  | nil => simp [takeLine]
  | cons a as ih =>
    rw [List.mem_cons, not_or] at h
    rw [List.cons_append, takeLine, if_neg (fun e => h.1 e.symm), ih h.2]

theorem endsNL_concat (l : List Char) : endsNL (l ++ ['\n']) = true := by
  simp [endsNL, List.getLast?_concat]

theorem endsNL_append_no_newline (l1 l2 : List Char) (h2 : l2 ≠ []) (h : '\n' ∉ l2) :
    endsNL (l1 ++ l2) = false := by
  have hlast : l2.getLast? = some (l2.getLast h2) := List.getLast?_eq_getLast l2 h2
  have hne : l2.getLast h2 ≠ '\n' := fun e => h (e ▸ List.getLast_mem h2)
  simp [endsNL, List.getLast?_append, hlast, hne]

/-- Single unfolding of `drain` with the decidable branch written as `ite`. -/
theorem drain_eq (ign : Bool) (c : List Char) (pos : Nat) (buf : List Char) :
    drain ign c pos buf =
      if takeLine (c.drop pos) = [] then ([], pos, buf)
      else
        if endsNL (buf ++ takeLine (c.drop pos)) then
          ((if ign then (drain ign c (pos + (takeLine (c.drop pos)).length) []).1
            else (buf ++ takeLine (c.drop pos)) ::
              (drain ign c (pos + (takeLine (c.drop pos)).length) []).1),
           (drain ign c (pos + (takeLine (c.drop pos)).length) []).2.1,
           (drain ign c (pos + (takeLine (c.drop pos)).length) []).2.2)
        else drain ign c (pos + (takeLine (c.drop pos)).length) (buf ++ takeLine (c.drop pos)) := by
  rw [drain]
  simp only [dite_eq_ite]

theorem drain_at_end (ign : Bool) (c : List Char) (pos : Nat) (buf : List Char)
    (h : c.length ≤ pos) : drain ign c pos buf = ([], pos, buf) := by
  rw [drain_eq, if_pos (by rw [List.drop_eq_nil_of_le h]; rfl)]

/-- Main invariants of one drain: every yielded line is newline-terminated;
with `ignoreExisting` set, nothing is yielded; with it clear, the yielded
lines followed by the final buffer are exactly the old buffer followed by the
bytes read; and the final read offset is the end of the content. -/
theorem drain_spec (ign : Bool) (c : List Char) (pos : Nat) (buf : List Char) :
    ((drain ign c pos buf).1.all endsNL = true)
    ∧ (ign = true → (drain ign c pos buf).1 = [])
    ∧ (ign = false →
        (drain ign c pos buf).1.flatten ++ (drain ign c pos buf).2.2 = buf ++ c.drop pos)
    ∧ (pos ≤ c.length → (drain ign c pos buf).2.1 = c.length) := by
  induction pos, buf using drain.induct ign c with
  | case1 pos buf h =>
    have hnil : c.drop pos = [] := (takeLine_eq_nil_iff _).mp h
    rw [drain_eq, if_pos h]
    refine ⟨by simp, fun _ => rfl, fun _ => by simp [hnil], fun hle => ?_⟩
    have hge : c.length ≤ pos := by
      by_contra hlt
      exact absurd hnil (by simp only [ne_eq, List.drop_eq_nil_iff]; omega)
    show pos = c.length
    omega
  | case2 pos buf h1 h2 ih =>
    have hkey : takeLine (c.drop pos) ++ c.drop (pos + (takeLine (c.drop pos)).length)
        = c.drop pos := by
      rw [← List.drop_drop, takeLine_append_drop]
    have harith : pos ≤ c.length → pos + (takeLine (c.drop pos)).length ≤ c.length := by
      intro hle
      have := takeLine_length_le (c.drop pos)
      rw [List.length_drop] at this
      omega
    rw [drain_eq, if_neg h1, if_pos h2]
    refine ⟨?_, fun hign => ?_, fun hign => ?_, fun hle => ih.2.2.2 (harith hle)⟩
    · cases ign with
      | true => simpa using ih.1
      | false => simp only [Bool.false_eq_true, if_false, List.all_cons, h2, Bool.true_and]
                 exact ih.1
    · subst hign
      simp [ih.2.1 rfl]
    · subst hign
      simp only [Bool.false_eq_true, if_false, List.flatten_cons, List.append_assoc]
      rw [ih.2.2.1 rfl]
      simp [← List.append_assoc, hkey]
  | case3 pos buf h1 h2 ih =>
    have hkey : takeLine (c.drop pos) ++ c.drop (pos + (takeLine (c.drop pos)).length)
        = c.drop pos := by
      rw [← List.drop_drop, takeLine_append_drop]
    have harith : pos ≤ c.length → pos + (takeLine (c.drop pos)).length ≤ c.length := by
      intro hle
      have := takeLine_length_le (c.drop pos)
      rw [List.length_drop] at this
      omega
    rw [drain_eq, if_neg h1, if_neg h2]
    refine ⟨ih.1, ih.2.1, fun hign => ?_, fun hle => ih.2.2.2 (harith hle)⟩
    rw [ih.2.2.1 hign]
    simp [List.append_assoc, hkey]

theorem drain_no_newline (ign : Bool) (c : List Char) (pos : Nat) (buf : List Char)
    (h : '\n' ∉ c.drop pos) :
    drain ign c pos buf = ([], pos + (c.drop pos).length, buf ++ c.drop pos) := by
  by_cases hnil : c.drop pos = []
  · rw [drain_eq, if_pos (by rw [hnil]; rfl)]
    simp [hnil]
  · have hpos : pos < c.length := by
      by_contra hle
      exact hnil (List.drop_eq_nil_of_le (Nat.le_of_not_lt hle))
    have ht : takeLine (c.drop pos) = c.drop pos := takeLine_of_not_mem _ h
    rw [drain_eq, ht, if_neg hnil,
      if_neg (by rw [endsNL_append_no_newline buf _ hnil h]; simp),
      drain_at_end _ _ _ _ (by rw [List.length_drop]; omega)]

/-! ### Lemmas about the polling loop -/

theorem followGo_all_endsNL (sched : Schedule) :
    ∀ (origI ls pos : Nat) (buf : List Char),
      (followGo origI ls pos buf sched).yields.all endsNL = true := by
  induction sched with
  | nil => intros; rfl
  | cons s rest ih =>
    intro origI ls pos buf
    cases s with
    | none => rfl
    | some f =>
      simp only [followGo]
      split
      · rfl
      · split
        · rfl
        · simp only [List.all_append, Bool.and_eq_true]
          exact ⟨(drain_spec false f.content pos buf).1, ih _ _ _ _⟩

theorem follow_all_endsNL (ign : Bool) (sched : Schedule) :
    (follow ign sched).yields.all endsNL = true := by
  cases sched with
  | nil => rfl
  | cons s rest =>
    cases s with
    | none => rfl
    | some f =>
      simp only [follow, List.all_append, Bool.and_eq_true]
      exact ⟨(drain_spec ign f.content 0 []).1, followGo_all_endsNL _ _ _ _ _⟩

theorem followGo_replicate (k : Nat) (ino : Nat) (c buf : List Char) (rest : Schedule) :
    followGo ino c.length c.length buf (List.replicate k (some ⟨ino, c⟩) ++ rest)
      = followGo ino c.length c.length buf rest := by
  induction k with
  | zero => rfl
  | succ n ih =>
    rw [List.replicate_succ, List.cons_append]
    simp only [followGo, ne_eq, not_true_eq_false, if_false, lt_irrefl,
      drain_at_end false c c.length buf (Nat.le_refl _), ih]
    rcases followGo ino c.length c.length buf rest with ⟨y, o, p, b⟩
    simp

theorem drain_last_line (s t : List Char) (ht : '\n' ∉ t) :
    drain false (s ++ (t ++ ['\n'])) s.length s
      = ([s ++ (t ++ ['\n'])], (s ++ (t ++ ['\n'])).length, []) := by
  have htl : takeLine ((s ++ (t ++ ['\n'])).drop s.length) = t ++ ['\n'] := by
    rw [List.drop_left, takeLine_concat_newline t ht]
  have hne : (t ++ ['\n'] : List Char) ≠ [] := by simp
  have hnl : endsNL (s ++ (t ++ ['\n'])) = true := by
    rw [← List.append_assoc]; exact endsNL_concat _
  rw [drain_eq, htl, if_neg hne, if_pos hnl,
    drain_at_end false _ (s.length + (t ++ ['\n']).length) []
      (by simp [List.length_append])]
  simp [List.length_append]

theorem followGo_grow (incs : List (List Char)) :
    ∀ (ino : Nat) (c buf : List Char),
      ((followGo ino c.length c.length buf (grow ino c incs)).outcome = none)
      ∧ ((followGo ino c.length c.length buf (grow ino c incs)).yields.flatten
          ++ (followGo ino c.length c.length buf (grow ino c incs)).buf
            = buf ++ incs.flatten)
      ∧ ((followGo ino c.length c.length buf (grow ino c incs)).pos
          = (c ++ incs.flatten).length) := by
  induction incs with
  | nil => intro ino c buf; simp [grow, followGo]
  | cons d ds ih =>
    intro ino c buf
    have hspec := drain_spec false (c ++ d) c.length buf
    have hpos : (drain false (c ++ d) c.length buf).2.1 = (c ++ d).length :=
      hspec.2.2.2 (by simp)
    have hjoin : (drain false (c ++ d) c.length buf).1.flatten
        ++ (drain false (c ++ d) c.length buf).2.2 = buf ++ d := by
      rw [hspec.2.2.1 rfl, List.drop_left]
    simp only [grow, followGo, ne_eq, not_true_eq_false, if_false,
      Nat.not_lt.mpr (by simp : c.length ≤ (c ++ d).length), ite_false]
    rcases hd0 : drain false (c ++ d) c.length buf with ⟨ys, pp, bb⟩
    rw [hd0] at hpos hjoin
    simp only at hpos hjoin
    subst hpos
    have hih := ih ino (c ++ d) bb
    refine ⟨hih.1, ?_, by rw [hih.2.2, List.append_assoc]; simp⟩
    simp only [List.flatten_append, List.append_assoc]
    rw [hih.2.1, ← List.append_assoc, hjoin, List.append_assoc]
    simp

/-! ### Claim theorems for the line follower -/

/-- C1: a line whose bytes arrive without a trailing newline is never yielded
(every yielded line is newline-terminated); the partial content is buffered
across polls, and once the terminating newline arrives — here after `k`
further idle polls — exactly one line is yielded, carrying the full
concatenated content. -/
theorem C1_partial_line_buffering :
    (∀ (ign : Bool) (sched : Schedule), (follow ign sched).yields.all endsNL = true)
    ∧ (∀ (ino k : Nat) (s t : List Char), '\n' ∉ s → '\n' ∉ t →
        (follow false (some ⟨ino, s⟩ ::
            (List.replicate k (some ⟨ino, s⟩) ++ [some ⟨ino, s ++ (t ++ ['\n'])⟩]))).yields
          = [s ++ (t ++ ['\n'])]) := by
  refine ⟨follow_all_endsNL, fun ino k s t hs ht => ?_⟩
  have hd : drain false s 0 [] = ([], s.length, s) := by
    have h0 := drain_no_newline false s 0 [] (by simpa using hs)
    simpa using h0
  simp only [follow, hd]
  rw [followGo_replicate k ino s s [some ⟨ino, s ++ (t ++ ['\n'])⟩]]
  simp only [followGo, ne_eq, not_true_eq_false, if_false,
    Nat.not_lt.mpr (by simp [List.length_append] : s.length ≤ (s ++ (t ++ ['\n'])).length),
    ite_false, drain_last_line s t ht]
  rfl

theorem C1_partial_line_buffering_witness :
    ('\n' ∉ (['a', 'b'] : List Char)) ∧ ('\n' ∉ (['c'] : List Char))
    ∧ (follow false (some ⟨1, ['a', 'b']⟩ ::
        (List.replicate 2 (some ⟨1, ['a', 'b']⟩)
          ++ [some ⟨1, ['a', 'b'] ++ (['c'] ++ ['\n'])⟩]))).yields
        = [['a', 'b'] ++ (['c'] ++ ['\n'])] :=
  ⟨by decide, by decide,
    C1_partial_line_buffering.2 1 2 ['a', 'b'] ['c'] (by decide) (by decide)⟩

/-- C2: over any schedule in which the file keeps its inode and only grows,
the follower never raises, its final read offset is the end of the final
content, and the yielded lines followed by the remaining buffer are exactly
the final content — every byte is consumed exactly once, none duplicated or
skipped. -/
theorem C2_resume_at_prior_offset (ino : Nat) (c0 : List Char) (incs : List (List Char)) :
    ((follow false (some ⟨ino, c0⟩ :: grow ino c0 incs)).outcome = none)
    ∧ ((follow false (some ⟨ino, c0⟩ :: grow ino c0 incs)).yields.flatten
        ++ (follow false (some ⟨ino, c0⟩ :: grow ino c0 incs)).buf = c0 ++ incs.flatten)
    ∧ ((follow false (some ⟨ino, c0⟩ :: grow ino c0 incs)).pos
        = (c0 ++ incs.flatten).length) := by
  have hspec := drain_spec false c0 0 []
  have hpos : (drain false c0 0 []).2.1 = c0.length := hspec.2.2.2 (Nat.zero_le _)
  have hjoin : (drain false c0 0 []).1.flatten ++ (drain false c0 0 []).2.2 = c0 := by
    simpa using hspec.2.2.1 rfl
  simp only [follow]
  rcases hd0 : drain false c0 0 [] with ⟨ys, pp, bb⟩
  rw [hd0] at hpos hjoin
  simp only at hpos hjoin
  subst hpos
  have hg := followGo_grow incs ino c0 bb
  refine ⟨hg.1, ?_, hg.2.2⟩
  simp only [List.flatten_append]
  rw [List.append_assoc, hg.2.1, ← List.append_assoc, hjoin]

/-- C3 counterexample: with `skipExistingContent` true, the partial line
"ab" (no newline) already present at open time is buffered, not discarded by
a seek; when "c\nd" is appended, the follower yields "abc\n" — a line made of
pre-existing content — refuting both the seek-to-end description and the
"no line made of pre-existing content is ever yielded" guarantee. -/
theorem C3_counterexample :
    (follow true [some ⟨1, ['a', 'b']⟩, some ⟨1, ['a', 'b', 'c', '\n', 'd']⟩]).yields
        = [['a', 'b', 'c', '\n']]
    ∧ (['a', 'b', 'c', '\n'] : List Char).take 2 = ['a', 'b'] := by
  constructor
  · simp [follow, followGo, drain, takeLine, endsNL]
  · rfl

/-- C3 (amended): with `skipExistingContent` true the follower does not seek;
it reads from offset 0 and discards every complete line read before the first
idle poll, so no line is yielded while only the content present at open time
has been read — but a trailing partial line present at open is kept in the
buffer and may later be yielded with its pre-existing bytes (see the
counterexample). -/
theorem C3_skip_existing_amended :
    (∀ (c : List Char) (pos : Nat) (buf : List Char), (drain true c pos buf).1 = [])
    ∧ (∀ (ino : Nat) (c : List Char), (follow true [some ⟨ino, c⟩]).yields = []) := by
  refine ⟨fun c pos buf => (drain_spec true c pos buf).2.1 rfl, fun ino c => ?_⟩
  simp [follow, followGo, (drain_spec true c 0 []).2.1 rfl]

/-- C4: if a poll finds the inode unchanged but the size smaller than at the
previous stat, the follower raises `FileShrunkError`, not
`InodeChangedError`. -/
theorem C4_shrink_raises_fileShrunk (ign : Bool) (ino : Nat) (c c2 : List Char)
    (h : c2.length < c.length) :
    (follow ign [some ⟨ino, c⟩, some ⟨ino, c2⟩]).outcome = some PyExc.fileShrunk
    ∧ PyExc.fileShrunk ≠ PyExc.inodeChanged := by
  refine ⟨?_, by decide⟩
  simp [follow, followGo, h]

theorem C4_shrink_raises_fileShrunk_witness :
    (([] : List Char).length < (['a'] : List Char).length)
    ∧ ((follow false [some ⟨1, ['a']⟩, some ⟨1, []⟩]).outcome = some PyExc.fileShrunk
        ∧ PyExc.fileShrunk ≠ PyExc.inodeChanged) :=
  ⟨by decide, C4_shrink_raises_fileShrunk false 1 ['a'] [] (by decide)⟩

/-- C5 counterexample: when the file is absent at an idle-poll stat, the
follower fails with `FileNotFoundError` (raised by `os.lstat`), which is not
the error raised when the inode changed (`InodeChangedError`) — refuting the
claim that the Missing condition fails with the same error as a rotation. -/
theorem C5_counterexample :
    (follow false [some ⟨1, ['a', '\n']⟩, none]).outcome = some PyExc.fileNotFound
    ∧ PyExc.fileNotFound ≠ PyExc.inodeChanged := by
  constructor
  · simp [follow, followGo, drain, takeLine, endsNL]
  · decide

/-- C5 (amended): when the followed file is absent at an idle-poll stat, the
follower fails with `FileNotFoundError` — a different exception type from
`InodeChangedError` — but the recovery handler of `read_log_files` catches
both, so the loop reacts to Missing exactly as it reacts to a rotation. -/
theorem C5_missing_file_amended (ign : Bool) (ino : Nat) (c : List Char) (rest : Schedule) :
    (follow ign (some ⟨ino, c⟩ :: none :: rest)).outcome = some PyExc.fileNotFound
    ∧ caughtByRecovery PyExc.fileNotFound = true
    ∧ caughtByRecovery PyExc.inodeChanged = true := by
  refine ⟨?_, rfl, rfl⟩
  simp [follow, followGo]

/-! ### Lemmas about the ingestion loop -/

theorem processLine_false_hist (resolver : List (String × String))
    (p : List Char → Except String RawRecord) (l : List Char) (s : SummaryObs)
    (h : Option HistObs) (hobs : processLine false resolver p l = .observed s h) :
    h = none := by
  unfold processLine at hobs
  rcases hp : parse_line p l with e | entry
  · simp [hp] at hobs
  · simp only [hp] at hobs
    rcases hrh : entry.remote_host with _ | rh
    · simp [hrh] at hobs
    · simp only [hrh] at hobs
      injection hobs with _ hh
      exact hh.symm

theorem read_log_files_false_ignore (eh : Bool) (resolver : List (String × String))
    (p : List Char → Except String RawRecord) (scheds : List Schedule) :
    (read_log_files eh resolver p false scheds).sessions.map SessionLog.usedIgnore
      = List.replicate (read_log_files eh resolver p false scheds).sessions.length false := by
  induction scheds with
  | nil => rfl
  | cons sched rest ih =>
    simp only [read_log_files]
    split
    · rfl
    · split
      · simp [ih, List.replicate_succ]
      · rfl

theorem read_log_files_slept (eh : Bool) (resolver : List (String × String))
    (p : List Char → Except String RawRecord) (scheds : List Schedule) :
    ∀ ign : Bool,
      (read_log_files eh resolver p ign scheds).recoveries.map Recovery.slept
        = List.replicate (read_log_files eh resolver p ign scheds).recoveries.length 1 := by
  induction scheds with
  | nil => intro ign; rfl
  | cons sched rest ih =>
    intro ign
    simp only [read_log_files]
    split
    · rfl
    · split
      · simp [ih false, List.replicate_succ]
      · rfl

/-! ### Claim theorems for normalization and the ingestion loop -/

/-- C6 counterexample: normalization is not total. On a raw record that lacks
the `remote_host` attribute, the alias-lookup step (line 132) raises
`AttributeError`, so `normalize` fails instead of producing a record. -/
theorem C6_counterexample :
    normalize [] ⟨none, none, none, none, "/", 200⟩ = Except.error PyExc.attributeError := rfl

/-- C6 (amended): normalization is pure and total on every RawRecord that has
a `remote_host` attribute: missing `virtual_host`, `server_port`, `bytes_out`
get the defaults "unspecified", 80 and 0, and a `remote_host` absent from the
alias table resolves to "def"; a RawRecord lacking `remote_host` instead makes
normalization fail with `AttributeError` (see the counterexample). -/
theorem C6_normalize_defaults (resolver : List (String × String)) (raw : RawRecord)
    (rh : String) (h : raw.remote_host = some rh) :
    ∃ n, normalize resolver raw = Except.ok n
      ∧ (raw.virtual_host = none → n.virtual_host = "unspecified")
      ∧ (raw.server_port = none → n.server_port = 80)
      ∧ (raw.bytes_out = none → n.bytes_out = 0)
      ∧ (resolver.lookup rh = none → n.resolved_remote_host = "def") := by
  simp only [normalize, h]
  exact ⟨_, rfl, fun hv => by simp [hv], fun hp => by simp [hp], fun hb => by simp [hb],
    fun hl => by simp [dictGet, hl, UNSPECIFIED]⟩

theorem C6_normalize_defaults_witness :
    ((⟨none, none, none, some "1.2.3.4", "/", 200⟩ : RawRecord).remote_host = some "1.2.3.4")
    ∧ ∃ n, normalize [] ⟨none, none, none, some "1.2.3.4", "/", 200⟩ = Except.ok n
        ∧ ((⟨none, none, none, some "1.2.3.4", "/", 200⟩ : RawRecord).virtual_host = none →
            n.virtual_host = "unspecified")
        ∧ ((⟨none, none, none, some "1.2.3.4", "/", 200⟩ : RawRecord).server_port = none →
            n.server_port = 80)
        ∧ ((⟨none, none, none, some "1.2.3.4", "/", 200⟩ : RawRecord).bytes_out = none →
            n.bytes_out = 0)
        ∧ (([] : List (String × String)).lookup "1.2.3.4" = none →
            n.resolved_remote_host = "def") :=
  ⟨rfl, C6_normalize_defaults [] ⟨none, none, none, some "1.2.3.4", "/", 200⟩ "1.2.3.4" rfl⟩

/-- C7: a line the external parser fails on is logged and skipped: processing
the remaining lines is exactly as if the bad line had not been there, except
that the bad line is recorded as warned about — no observation is produced
for it, no state changes, and the loop is not terminated by it. -/
theorem C7_parse_failure_skipped (eh : Bool) (resolver : List (String × String))
    (p : List Char → Except String RawRecord) (bad : List Char)
    (rest : List (List Char)) (msg : String) (h : p bad = Except.error msg) :
    processLines eh resolver p (bad :: rest) =
      ⟨(processLines eh resolver p rest).summaryObs,
       (processLines eh resolver p rest).histObs,
       bad :: (processLines eh resolver p rest).warned,
       (processLines eh resolver p rest).raised⟩ := by
  have hskip : processLine eh resolver p bad = .skipped := by
    simp [processLine, parse_line, h]
  simp [processLines, hskip]

theorem C7_parse_failure_skipped_witness :
    (pEx ['z'] = Except.error "parse failure")
    ∧ processLines true [] pEx (['z'] :: []) =
        ⟨(processLines true [] pEx []).summaryObs,
         (processLines true [] pEx []).histObs,
         ['z'] :: (processLines true [] pEx []).warned,
         (processLines true [] pEx []).raised⟩ :=
  ⟨rfl, C7_parse_failure_skipped true [] pEx ['z'] [] "parse failure" rfl⟩

/-- C8: the configured `ignoreExisting` value is used only for the very first
opening of `follow`; every session opened after a recovery uses
`ignoreExisting = False`, and every recovery performs the fixed
`time.sleep(1)` back-off. -/
theorem C8_skip_only_first_open (eh : Bool) (resolver : List (String × String))
    (p : List Char → Except String RawRecord) (ign : Bool) (sched : Schedule)
    (rest : List Schedule) :
    (read_log_files eh resolver p ign (sched :: rest)).sessions.map SessionLog.usedIgnore
      = ign :: List.replicate
          ((read_log_files eh resolver p ign (sched :: rest)).sessions.length - 1) false
    ∧ (read_log_files eh resolver p ign (sched :: rest)).recoveries.map Recovery.slept
      = List.replicate
          ((read_log_files eh resolver p ign (sched :: rest)).recoveries.length) 1 := by
  refine ⟨?_, read_log_files_slept eh resolver p (sched :: rest) ign⟩
  simp only [read_log_files]
  split
  · rfl
  · split
    · simp [read_log_files_false_ignore eh resolver p rest, List.replicate_succ]
    · rfl

/-- C9: every successfully parsed record with a `remote_host` attribute leads
to a summary observation of `bytes_out` under the labels (virtual_host,
server_port, request_uri, final_status, resolved remote_host); when histogram
emission is disabled at construction, no histogram observation is ever issued
for any input; when enabled, the histogram observation carries the
(virtual_host, resolved remote_host) labels. -/
theorem C9_observation_labels :
    (∀ (resolver : List (String × String)) (p : List Char → Except String RawRecord)
        (ls : List (List Char)), (processLines false resolver p ls).histObs = [])
    ∧ (∀ (eh : Bool) (resolver : List (String × String))
        (p : List Char → Except String RawRecord) (line : List Char) (entry : Entry)
        (rh : String), parse_line p line = Except.ok entry → entry.remote_host = some rh →
        processLine eh resolver p line =
          LineStep.observed
            ⟨entry.virtual_host, toString entry.server_port, entry.request_uri,
              toString entry.final_status, dictGet resolver rh UNSPECIFIED, entry.bytes_out⟩
            (if eh then
              some ⟨entry.virtual_host, dictGet resolver rh UNSPECIFIED, entry.bytes_out⟩
            else none))
    ∧ (∀ (eh : Bool) (resolver : List (String × String))
        (p : List Char → Except String RawRecord) (line : List Char)
        (rest : List (List Char)) (s : SummaryObs) (h : Option HistObs),
        processLine eh resolver p line = LineStep.observed s h →
        (processLines eh resolver p (line :: rest)).summaryObs
            = s :: (processLines eh resolver p rest).summaryObs
        ∧ (processLines eh resolver p (line :: rest)).histObs
            = h.toList ++ (processLines eh resolver p rest).histObs) := by
  refine ⟨fun resolver p ls => ?_, fun eh resolver p line entry rh hok hrh => ?_,
    fun eh resolver p line rest s h hobs => ?_⟩
  · induction ls with
    | nil => rfl
    | cons l ls ih =>
      rcases hpl : processLine false resolver p l with _ | ⟨s, hh⟩ | e
      · simp [processLines, hpl, ih]
      · have := processLine_false_hist resolver p l s hh hpl
        subst this
        simp [processLines, hpl, ih]
      · simp [processLines, hpl]
  · simp [processLine, hok, hrh]
  · cases h with
    | none => simp [processLines, hobs]
    | some hh => simp [processLines, hobs]

theorem C9_observation_labels_witness :
    (parse_line pEx2 ['y', '\n']
        = Except.ok ⟨"h", 8080, 7, some "1.2.3.4", "/a", 301⟩)
    ∧ ((⟨"h", 8080, 7, some "1.2.3.4", "/a", 301⟩ : Entry).remote_host = some "1.2.3.4")
    ∧ processLine true [("1.2.3.4", "localhost")] pEx2 ['y', '\n'] =
        LineStep.observed
          ⟨("h" : String), toString (8080 : Nat), ("/a" : String), toString (301 : Nat),
            dictGet [("1.2.3.4", "localhost")] "1.2.3.4" UNSPECIFIED, (7 : Nat)⟩
          (if true then
            some ⟨("h" : String), dictGet [("1.2.3.4", "localhost")] "1.2.3.4" UNSPECIFIED,
              (7 : Nat)⟩
          else none) :=
  ⟨rfl, rfl,
    C9_observation_labels.2.1 true [("1.2.3.4", "localhost")] pEx2 ['y', '\n']
      ⟨"h", 8080, 7, some "1.2.3.4", "/a", 301⟩ "1.2.3.4" rfl rfl⟩

/-- C10: the recovery handler of `read_log_files` catches exactly
`FileNotFoundError`, `InodeChangedError` and `FileShrunkError`; the per-line
handler guards only the parse-and-default step (a parser failure is skipped);
an exception raised after parsing succeeds — such as the `AttributeError`
from resolving the remote host of a record lacking that attribute — aborts
line processing with no observation for that line, and at loop scope it is
not caught: `read_log_files` terminates with it, running no further session
and no recovery. -/
theorem C10_handler_scopes :
    (∀ e : PyExc, caughtByRecovery e = true ↔
        (e = PyExc.fileNotFound ∨ e = PyExc.inodeChanged ∨ e = PyExc.fileShrunk))
    ∧ (∀ (eh : Bool) (resolver : List (String × String))
        (p : List Char → Except String RawRecord) (line : List Char) (msg : String),
        p line = Except.error msg → processLine eh resolver p line = LineStep.skipped)
    ∧ (∀ (eh : Bool) (resolver : List (String × String))
        (p : List Char → Except String RawRecord) (line : List Char) (entry : RawRecord),
        p line = Except.ok entry → entry.remote_host = none →
        ∀ rest : List (List Char), processLines eh resolver p (line :: rest)
          = ⟨[], [], [], some PyExc.attributeError⟩)
    ∧ (∀ (eh : Bool) (resolver : List (String × String))
        (p : List Char → Except String RawRecord) (ign : Bool) (sched : Schedule)
        (rest : List Schedule) (e : PyExc),
        (processLines eh resolver p (follow ign sched).yields).raised = some e →
        caughtByRecovery e = false →
        read_log_files eh resolver p ign (sched :: rest)
          = ⟨[⟨ign, processLines eh resolver p (follow ign sched).yields⟩], [], some e⟩) := by
  refine ⟨fun e => by cases e <;> simp [caughtByRecovery],
    fun eh resolver p line msg h => by simp [processLine, parse_line, h],
    fun eh resolver p line entry hok hrh rest => ?_, ?_⟩
  · have hraise : processLine eh resolver p line = .raised .attributeError := by
      simp [processLine, parse_line, hok, hrh]
    simp [processLines, hraise]
  · intro eh resolver p ign sched rest e hraised hcaught
    simp [read_log_files, hraised, hcaught]

theorem C10_handler_scopes_witness :
    (pEx ['x', '\n'] = Except.ok ⟨none, none, none, none, "/", 200⟩)
    ∧ ((⟨none, none, none, none, "/", 200⟩ : RawRecord).remote_host = none)
    ∧ processLines true [] pEx (['x', '\n'] :: [['q']])
        = ⟨[], [], [], some PyExc.attributeError⟩ :=
  ⟨rfl, rfl,
    C10_handler_scopes.2.2.1 true [] pEx ['x', '\n']
      ⟨none, none, none, none, "/", 200⟩ rfl rfl [['q']]⟩

end ApacheLogExporter
